import Mathlib

/-!
Verification of the growthOS knowledge-management core against its
natural-language specification.

The development shallowly embeds the Python sources:

* `src/core/similarity.py` (`SSC`): a linear scan computing a similarity
  score of the query embedding against every stored item, keeping a running
  strict maximum above a threshold.  The external embedding provider and the
  numeric cosine-similarity routine (numpy/sklearn, external collaborators)
  are abstracted as function parameters `embed` and `sim`; the claims under
  scrutiny concern the selection logic of the scan, not the cosine formula.
* `src/core/llm_updater.py` (`LLMUpdater`, `generate_fallback_recommendations`):
  the recommendation generator with its deterministic fallback.  The outcome
  of the remote LLM call together with JSON parsing is abstracted as an
  `Except` parameter.
* `src/database/supabase_manager.py` (`add_knowledge_item`,
  `get_database_stats`): the store adapter, with the remote table modelled as
  a list of records and the wall clock as an explicit parameter.
* `src/api/service.py` / `src/api/models.py`: request validation and the
  apply-recommendation flow, with the sequence of outbound external calls
  made explicit as a trace.

Floating-point numbers are modelled as rationals; timestamps as naturals.
-/

/-- A stored knowledge item as returned by `load_all_knowledge`.  In the
Python code items are dictionaries; an absent or empty `embedding` key is
falsy, which we model by the empty list. -/
structure StoredItem where
  category : String
  content : String
  tags : List String
  embedding : List ℚ
deriving DecidableEq, Repr, Inhabited

/-- The value returned by `SSC` on success: a copy of the stored item with
the field `similarity_score` attached (similarity.py line 47-48). -/
structure SimMatch where
  item : StoredItem
  similarity_score : ℚ
deriving DecidableEq, Repr

/-- The vector used for a stored item in the scan (similarity.py lines
33-40): the stored embedding when present and non-empty, otherwise an
embedding computed from the content, otherwise the item is skipped. -/
def itemVec (embed : String → List ℚ) (it : StoredItem) : Option (List ℚ) :=
  if it.embedding ≠ [] then some it.embedding
  else if it.content = "" then none
  else some (embed it.content)

/-- The similarity score the scan computes for an item (0 for skipped
items, which never enter the comparison). -/
def scoreOf (embed : String → List ℚ) (sim : List ℚ → List ℚ → ℚ)
    (text : String) (it : StoredItem) : ℚ :=
  match itemVec embed it with
  | some v => sim (embed text) v
  | none => 0

/-- One iteration of the loop in similarity.py lines 31-48, carrying the
state `(best_match, highest_similarity)`. -/
def SSCstep (embed : String → List ℚ) (sim : List ℚ → List ℚ → ℚ)
    (text : String) (threshold : ℚ)
    (st : Option SimMatch × ℚ) (it : StoredItem) : Option SimMatch × ℚ :=
  match itemVec embed it with
  | none => st
  | some v =>
    let s := sim (embed text) v
    if s > st.2 ∧ s > threshold then (some ⟨it, s⟩, s) else st

/-- `SSC(text, threshold)` from similarity.py: scan all stored knowledge,
starting from `best_match = None`, `highest_similarity = 0.0`. -/
def SSC (embed : String → List ℚ) (sim : List ℚ → List ℚ → ℚ)
    (text : String) (threshold : ℚ)
    (existing_knowledge : List StoredItem) : Option SimMatch :=
  (existing_knowledge.foldl (SSCstep embed sim text threshold) (none, 0)).1

/-- Python `str.lower()`, modelled character-wise (the inputs of interest
are ASCII). -/
def strLower (s : String) : String := ⟨s.data.map Char.toLower⟩

/-- Python `str.strip()`: drop whitespace from both ends. -/
def strTrim (s : String) : String :=
  ⟨((s.data.dropWhile Char.isWhitespace).reverse.dropWhile
      Char.isWhitespace).reverse⟩

/-- Python `pat in hay` on strings: substring containment. -/
def containsSub (hay pat : String) : Bool :=
  hay.data.tails.any (fun suf => pat.data.isPrefixOf suf)

/-- A recommendation as produced by `LLMUpdater` or the fallback: the keys
`change`, `updated_text`, `category`, `tags` of llm_updater.py. -/
structure Recommendation where
  change : String
  updated_text : String
  category : String
  tags : List String
deriving DecidableEq, Repr, Inhabited

/-- The `tag_keywords` table of `generate_basic_tags` (llm_updater.py lines
44-53), in Python dictionary insertion order. -/
def tag_keywords : List (String × List String) :=
  [("ai", ["artificial intelligence", "ai", "machine learning", "ml",
           "neural", "algorithm"]),
   ("business", ["business", "strategy", "marketing", "finance", "revenue",
                 "profit"]),
   ("technology", ["technology", "tech", "software", "programming", "coding",
                   "development"]),
   ("health", ["health", "medical", "wellness", "fitness", "exercise",
               "nutrition"]),
   ("education", ["education", "learning", "study", "teaching", "knowledge",
                  "training"]),
   ("science", ["science", "research", "experiment", "hypothesis", "theory",
                "analysis"]),
   ("psychology", ["psychology", "behavior", "cognitive", "mental", "emotion",
                   "mind"]),
   ("economics", ["economics", "economic", "market", "economy", "financial",
                  "investment"])]

/-- `generate_basic_tags` (llm_updater.py lines 39-66): keyword-match the
lower-cased text against the topic table, default to `detailed`/`knowledge`
when nothing matches, and cap at 5 tags. -/
def generate_basic_tags (text : String) : List String :=
  let text_lower := strLower text
  let tags := (tag_keywords.filter
    (fun p => p.2.any (fun kw => containsSub text_lower kw))).map Prod.fst
  let tags := if tags = [] then
      (if text.length > 500 then ["detailed"] else []) ++ ["knowledge"]
    else tags
  tags.take 5

/-- `generate_fallback_recommendations` (llm_updater.py lines 32-109): two
options that depend on whether a best match exists, followed by the fixed
new-category option. -/
def generate_fallback_recommendations (input_text : String)
    (existing_item : Option SimMatch) : List Recommendation :=
  let base : List Recommendation := match existing_item with
    | some e =>
      [⟨"We merged your new information with the existing '" ++
          e.item.category ++
          "' category by appending it to the current content.",
        e.item.content ++ "\n\n[ADDITION]: " ++ input_text,
        e.item.category,
        e.item.tags ++ ["updated"] ++ generate_basic_tags input_text⟩,
       ⟨"We updated the '" ++ e.item.category ++
          "' category by replacing the content with your new, more comprehensive information.",
        input_text,
        e.item.category,
        generate_basic_tags input_text ++ ["updated"]⟩]
    | none =>
      [⟨"We created a new category since no similar content was found in your database.",
        input_text,
        "New Knowledge Category",
        generate_basic_tags input_text ++ ["new"]⟩,
       ⟨"We created a new category with enhanced formatting for better readability.",
        "# Overview\n" ++ input_text,
        "New Knowledge Category",
        generate_basic_tags input_text ++ ["formatted", "new"]⟩]
  base ++
    [⟨"We recommend creating a completely new category to keep this information separate and distinct.",
      input_text,
      "New Category",
      generate_basic_tags input_text ++ ["new", "distinct"]⟩]

/-- The `tags` value of a parsed LLM recommendation: a JSON array (of
values rendered as strings) or a bare scalar, carrying its string
rendering `str(tag)` together with its Python truthiness.  The two are
independent: the falsy scalars `0`, `0.0`, `false` and `null` render as
the non-empty strings "0", "0.0", "False" and "None", while the empty
string is the one falsy scalar rendering empty. -/
inductive JTags where
  | scalar (s : String) (truthy : Bool)
  | list (l : List String)
deriving DecidableEq, Repr

/-- A parsed element of the LLM JSON response; `none` fields model missing
keys. -/
structure RawRec where
  change : Option String
  updated_text : Option String
  category : Option String
  tags : Option JTags
deriving DecidableEq, Repr

/-- The required-key validation of llm_updater.py lines 241-244. -/
def hasRequiredKeys (r : RawRec) : Bool :=
  r.change.isSome && r.updated_text.isSome && r.category.isSome &&
    r.tags.isSome

/-- The list coercion of llm_updater.py line 248,
`[rec['tags']] if rec['tags'] else []`: a non-list tags value is wrapped
into a one-element list when truthy and becomes the empty list
otherwise. -/
def rawTagList : JTags → List String
  | .list l => l
  | .scalar s truthy => if truthy then [s] else []

/-- The tag post-processing of llm_updater.py lines 246-258: coerce a
non-list value to a list (wrapping it when truthy), keep the
stripped-and-lower-cased form of every entry whose stripped form is
non-empty, cap at 5, and substitute the default pair when empty. -/
def cleanTags (tv : JTags) : List String :=
  let tags1 := (rawTagList tv).filterMap
    (fun t => if strTrim t = "" then none else some (strLower (strTrim t)))
  let tags2 := tags1.take 5
  if tags2 = [] then ["knowledge", "general"] else tags2

/-- One validated-and-cleaned recommendation of the primary path (the
defaults are never used on records that pass `hasRequiredKeys`). -/
def cleanRec (r : RawRec) : Recommendation :=
  ⟨r.change.getD "", r.updated_text.getD "", r.category.getD "",
   cleanTags (r.tags.getD (.list []))⟩

/-- `LLMUpdater` (llm_updater.py lines 111-267).  The outcome of the remote
chat-completion call combined with JSON parsing is the parameter
`llm_response`: `Except.error` covers transport errors, invalid JSON and a
response that is not an array of objects.  Everything inside the Python
`try` block that fails — including an unsupported `llm_type`, a length
other than 3 and a missing required key — is caught and redirected to
`generate_fallback_recommendations`. -/
def LLMUpdater (input_text : String) (existing_item : Option SimMatch)
    (llm_type : String) (llm_response : Except String (List RawRec)) :
    List Recommendation :=
  if strLower llm_type = "azure_openai" then
    match llm_response with
    | .error _ => generate_fallback_recommendations input_text existing_item
    | .ok recs =>
      if recs.length = 3 && recs.all hasRequiredKeys then
        recs.map cleanRec
      else generate_fallback_recommendations input_text existing_item
  else generate_fallback_recommendations input_text existing_item

/-- The tag post-processing as the specification and the claim word it:
tags are coerced to a list — wrapping a bare scalar unconditionally —
then each entry is stripped and lower-cased, empty entries dropped, the
list truncated to at most 5 entries, and replaced by the default pair
exactly when empty after clean-up. -/
def specCoerceTags : JTags → List String
  | .list l => l
  | .scalar s _ => [s]

/-- The remainder of the specification-worded tag post-processing, applied
to the coerced list. -/
def specCleanTags (tv : JTags) : List String :=
  let cleaned := ((specCoerceTags tv).map
    (fun t => strLower (strTrim t))).filter (fun t => t ≠ "")
  let limited := cleaned.take 5
  if limited = [] then ["knowledge", "general"] else limited

/-- A string is all lowercase when lowering each character fixes it. -/
def isLowerStr (s : String) : Bool := s.data.all (fun c => c.toLower = c)

/-- A row of the `knowledge_items` table. -/
structure Record where
  id : ℕ
  category : String
  content : String
  tags : List String
  embedding : List ℚ
  created_at : ℕ
  last_updated : ℕ
deriving DecidableEq, Repr, Inhabited

/-- The `knowledge_item` dictionary passed to `add_knowledge_item`. -/
structure KnowledgeItemInput where
  category : String
  content : String
  tags : List String
  embedding : List ℚ
deriving DecidableEq, Repr, Inhabited

/-- `get_knowledge_by_category` (supabase_manager.py lines 59-73): the
first row with the category, if any. -/
def get_knowledge_by_category (store : List Record) (category : String) :
    Option Record :=
  (store.filter (fun r => r.category = category)).head?

/-- `add_knowledge_item` (supabase_manager.py lines 25-57): the data row is
built with `created_at` and `last_updated` both set to the current time;
when the category exists every row of that category is overwritten with it
(keeping the store-assigned id), otherwise a new row is inserted.  Returns
the new store and the resulting record. -/
def add_knowledge_item (store : List Record) (item : KnowledgeItemInput)
    (now freshId : ℕ) : List Record × Option Record :=
  match get_knowledge_by_category store item.category with
  | some _ =>
    let newStore := store.map (fun r =>
      if r.category = item.category then
        { r with content := item.content, tags := item.tags,
                 embedding := item.embedding, created_at := now,
                 last_updated := now }
      else r)
    (newStore, get_knowledge_by_category newStore item.category)
  | none =>
    let newRec : Record :=
      ⟨freshId, item.category, item.content, item.tags, item.embedding,
       now, now⟩
    (store ++ [newRec], some newRec)

/-- Stable insertion of a (tag, count) pair into a descending-by-count
list: the pair goes before the first entry whose count is not larger. -/
def insertByCountDesc (a : String × ℕ) :
    List (String × ℕ) → List (String × ℕ)
  | [] => [a]
  | b :: bs => if a.2 < b.2 then b :: insertByCountDesc a bs else a :: b :: bs

/-- Python `sorted(tag_counts.items(), key=count, reverse=True)`: a stable
descending sort by count. -/
def sortByCountDesc (l : List (String × ℕ)) : List (String × ℕ) :=
  l.foldr insertByCountDesc []

/-- The dictionary returned by `get_database_stats`. -/
structure DatabaseStats where
  total_knowledge_items : ℕ
  unique_tags : ℕ
  categories : List String
  most_common_tags : List (String × ℕ)
  database_type : String
deriving DecidableEq, Repr

/-- All tags of the store in row order (`all_tags` of supabase_manager.py
lines 121-125). -/
def allTagsOf (store : List Record) : List String :=
  store.foldl (fun acc r => acc ++ r.tags) []

/-- The `tag_counts` table of supabase_manager.py lines 128-130: one
(tag, frequency) pair per distinct tag.  Python's `list(set(all_tags))`
enumerates the distinct tags in an order chosen by the hash table; we
model it with `dedup`. -/
def tagCounts (store : List Record) : List (String × ℕ) :=
  (allTagsOf store).dedup.map
    (fun tg => (tg, (allTagsOf store).count tg))

/-- `get_database_stats` (supabase_manager.py lines 106-140).  No reported
quantity depends on the hash-table enumeration order modelled by `dedup`
except the arbitrary order of equal-frequency entries in the sorted
result. -/
def get_database_stats (store : List Record) : DatabaseStats :=
  { total_knowledge_items := store.length
    unique_tags := (allTagsOf store).dedup.length
    categories := store.map (fun r => r.category)
    most_common_tags := (sortByCountDesc (tagCounts store)).take 10
    database_type := "Supabase" }

/-- The example store of spec section 8: one item tagged ["a", "b"] and one
tagged ["b", "c"]. -/
def exampleStatsStore : List Record :=
  [⟨1, "cat1", "x", ["a", "b"], [], 0, 0⟩,
   ⟨2, "cat2", "y", ["b", "c"], [], 0, 0⟩]

/-- The kinds of outbound external calls the service can make. -/
inductive ExtCall where
  | embedText (s : String)
  | llmCall
  | storeWrite (category : String)
deriving DecidableEq, Repr

/-- The embedding-provider calls made by `SSC` in scan order: one for the
query text (similarity.py line 22) and one per stored item lacking a
stored embedding but having content (line 40). -/
def SSCCalls (text : String) (items : List StoredItem) : List ExtCall :=
  ExtCall.embedText text ::
    items.filterMap (fun it =>
      if it.embedding = [] ∧ it.content ≠ "" then
        some (ExtCall.embedText it.content)
      else none)

/-- The chat-completion call made by `LLMUpdater`: only for the supported
llm type (an unsupported type raises before the call and falls back). -/
def LLMUpdaterCalls (llm_type : String) : List ExtCall :=
  if strLower llm_type = "azure_openai" then [ExtCall.llmCall] else []

/-- Validation of `ProcessTextRequest` (api/models.py lines 5-8): text
length between 1 and 10000, threshold in [0, 1]. -/
def processTextRequestValid (text : String)
    (similarity_threshold : ℚ) : Bool :=
  1 ≤ text.length && text.length ≤ 10000 &&
    0 ≤ similarity_threshold && similarity_threshold ≤ 1

/-- Validation of `ApplyRecommendationRequest` (api/models.py lines 26-30):
`selected_option` in 1..3 and threshold in [0, 1]; the `text` field carries
no constraint at all. -/
def applyRecommendationRequestValid (_text : String) (selected_option : ℤ)
    (similarity_threshold : ℚ) : Bool :=
  1 ≤ selected_option && selected_option ≤ 3 &&
    0 ≤ similarity_threshold && similarity_threshold ≤ 1

/-- `KnowledgeService.apply_recommendation` (service.py lines 69-121):
recompute the similarity match and the recommendations, bounds-check the
selected option (a failure is caught and reported, with no further calls),
then persist the selected recommendation with the fixed marker tags and a
freshly computed embedding.  Returns the outcome — the knowledge item
written together with the new store and the resulting record, or `none`
when the option check fails — paired with the trace of external calls in
order. -/
def apply_recommendation (embed : String → List ℚ)
    (sim : List ℚ → List ℚ → ℚ) (knowledge : List StoredItem)
    (store : List Record) (text : String) (selected_option : ℤ)
    (similarity_threshold : ℚ)
    (llm_response : Except String (List RawRec)) (now freshId : ℕ) :
    Option (KnowledgeItemInput × List Record × Option Record) × List ExtCall :=
  let most_similar := SSC embed sim text similarity_threshold knowledge
  let recommendations := LLMUpdater text most_similar "azure_openai" llm_response
  let baseCalls := SSCCalls text knowledge ++ LLMUpdaterCalls "azure_openai"
  if selected_option < 1 ∨ selected_option > recommendations.length then
    (none, baseCalls)
  else
    match recommendations.get? ((selected_option - 1).toNat) with
    | none => (none, baseCalls)
    | some selected_rec =>
      let knowledge_item : KnowledgeItemInput :=
        ⟨selected_rec.category, selected_rec.updated_text,
         if most_similar.isSome then ["updated"] else ["new"],
         embed selected_rec.updated_text⟩
      let written := add_knowledge_item store knowledge_item now freshId
      (some (knowledge_item, written.1, written.2),
       baseCalls ++ [ExtCall.embedText selected_rec.updated_text,
                     ExtCall.storeWrite selected_rec.category])

/-- The apply-recommendation endpoint: pydantic validation of the request
model runs before the service; an invalid request is rejected with no
external call made. -/
def applyEndpointCalls (embed : String → List ℚ)
    (sim : List ℚ → List ℚ → ℚ) (knowledge : List StoredItem)
    (store : List Record) (text : String) (selected_option : ℤ)
    (similarity_threshold : ℚ)
    (llm_response : Except String (List RawRec)) (now freshId : ℕ) :
    List ExtCall :=
  if applyRecommendationRequestValid text selected_option similarity_threshold then
    (apply_recommendation embed sim knowledge store text selected_option
      similarity_threshold llm_response now freshId).2
  else []

/-- The external calls of `KnowledgeService.process_text` (service.py
lines 27-67): the similarity scan followed by the LLM call. -/
def processServiceCalls (text : String) (knowledge : List StoredItem) :
    List ExtCall :=
  SSCCalls text knowledge ++ LLMUpdaterCalls "azure_openai"

/-- The process-text endpoint: pydantic validation of `ProcessTextRequest`
runs before the service. -/
def processEndpointCalls (text : String) (similarity_threshold : ℚ)
    (knowledge : List StoredItem) : List ExtCall :=
  if processTextRequestValid text similarity_threshold then
    processServiceCalls text knowledge
  else []

theorem scoreOf_eq_of_itemVec {embed : String → List ℚ}
    {sim : List ℚ → List ℚ → ℚ} {text : String} {it : StoredItem}
    {v : List ℚ} (h : itemVec embed it = some v) :
    scoreOf embed sim text it = sim (embed text) v := by
  unfold scoreOf
  rw [h]

/-- If every item of the suffix scores at most the current running maximum
or at most the threshold, the scan state does not change. -/
theorem SSC_foldl_frozen (embed : String → List ℚ)
    (sim : List ℚ → List ℚ → ℚ) (text : String) (threshold : ℚ)
    (l : List StoredItem) (st : Option SimMatch × ℚ)
    (h : ∀ it ∈ l, scoreOf embed sim text it ≤ st.2 ∨
          scoreOf embed sim text it ≤ threshold) :
    l.foldl (SSCstep embed sim text threshold) st = st := by
  induction l generalizing st with
  | nil => rfl
  | cons x xs ih =>
    have hx := h x (List.mem_cons_self x xs)
    have hxs : ∀ it ∈ xs, scoreOf embed sim text it ≤ st.2 ∨
        scoreOf embed sim text it ≤ threshold :=
      fun it hit => h it (List.mem_cons_of_mem x hit)
    have hstep : SSCstep embed sim text threshold st x = st := by
      unfold SSCstep
      cases hv : itemVec embed x with
      | none => rfl
      | some v =>
        have hs : scoreOf embed sim text x = sim (embed text) v :=
          scoreOf_eq_of_itemVec hv
        simp only []
        rw [if_neg]
        rw [hs] at hx
        rcases hx with hx | hx
        · exact fun hc => absurd hc.1 (not_lt.mpr hx)
        · exact fun hc => absurd hc.2 (not_lt.mpr hx)
    rw [List.foldl_cons, hstep]
    exact ih st hxs

/-- If an item `m` scoring above the threshold and above the current
running maximum appears in the remaining list, every item before it scores
strictly below `m` (or is `m` itself), and every item after it scores at
most `m`, then the scan ends with `m` and its score. -/
theorem SSC_foldl_wins (embed : String → List ℚ)
    (sim : List ℚ → List ℚ → ℚ) (text : String) (threshold : ℚ)
    (m : StoredItem) (l1 l2 : List StoredItem) (st : Option SimMatch × ℚ)
    (hmv : (itemVec embed m).isSome)
    (hmt : scoreOf embed sim text m > threshold)
    (hst : st.2 < scoreOf embed sim text m)
    (h1 : ∀ it ∈ l1, scoreOf embed sim text it < scoreOf embed sim text m ∨ it = m)
    (h2 : ∀ it ∈ l2, scoreOf embed sim text it ≤ scoreOf embed sim text m) :
    (l1 ++ m :: l2).foldl (SSCstep embed sim text threshold) st
      = (some ⟨m, scoreOf embed sim text m⟩, scoreOf embed sim text m) := by
  induction l1 generalizing st with
  | nil =>
    obtain ⟨v, hv⟩ := Option.isSome_iff_exists.mp hmv
    have hs : scoreOf embed sim text m = sim (embed text) v :=
      scoreOf_eq_of_itemVec hv
    have hstep : SSCstep embed sim text threshold st m
        = (some ⟨m, scoreOf embed sim text m⟩, scoreOf embed sim text m) := by
      unfold SSCstep
      rw [hv]
      simp only []
      rw [if_pos ⟨by rw [← hs]; exact hst, by rw [← hs]; exact hmt⟩, hs]
    rw [List.nil_append, List.foldl_cons, hstep]
    exact SSC_foldl_frozen embed sim text threshold l2 _
      (fun it hit => Or.inl (h2 it hit))
  | cons x xs ih =>
    have hx := h1 x (List.mem_cons_self x xs)
    have hxs : ∀ it ∈ xs, scoreOf embed sim text it < scoreOf embed sim text m ∨ it = m :=
      fun it hit => h1 it (List.mem_cons_of_mem x hit)
    rcases hx with hx | hx
    · -- item before m scores strictly below m: whatever the step does,
      -- the running maximum stays strictly below the score of m
      have hlt : (SSCstep embed sim text threshold st x).2 < scoreOf embed sim text m := by
        unfold SSCstep
        cases hv : itemVec embed x with
        | none => exact hst
        | some v =>
          have hs : scoreOf embed sim text x = sim (embed text) v :=
            scoreOf_eq_of_itemVec hv
          simp only []
          split
          · rw [← hs]; exact hx
          · exact hst
      rw [List.cons_append, List.foldl_cons]
      exact ih _ hlt hxs
    · -- a duplicate of m before the distinguished occurrence: the step
      -- installs m at once and the rest of the scan is frozen
      subst hx
      obtain ⟨v, hv⟩ := Option.isSome_iff_exists.mp hmv
      have hs : scoreOf embed sim text x = sim (embed text) v :=
        scoreOf_eq_of_itemVec hv
      have hstep : SSCstep embed sim text threshold st x
          = (some ⟨x, scoreOf embed sim text x⟩, scoreOf embed sim text x) := by
        unfold SSCstep
        rw [hv]
        simp only []
        rw [if_pos ⟨by rw [← hs]; exact hst, by rw [← hs]; exact hmt⟩, hs]
      rw [List.cons_append, List.foldl_cons, hstep]
      refine SSC_foldl_frozen embed sim text threshold (xs ++ x :: l2) _ ?_
      intro it hit
      left
      rcases List.mem_append.mp hit with hit | hit
      · rcases hxs it hit with h | h
        · exact le_of_lt h
        · rw [h]
      · rcases List.mem_cons.mp hit with h | h
        · rw [h]
        · exact h2 it h

/-- An item with a stored embedding or non-empty content is not skipped by
the scan. -/
theorem itemVec_isSome (embed : String → List ℚ) {it : StoredItem}
    (h : it.embedding ≠ [] ∨ it.content ≠ "") :
    (itemVec embed it).isSome := by
  unfold itemVec
  rcases h with h | h
  · rw [if_pos h]
    rfl
  · by_cases he : it.embedding ≠ []
    · rw [if_pos he]
      rfl
    · rw [if_neg he, if_neg h]
      rfl

/-- C1: for every collection of stored items (each with an embedding or
non-empty content) and every threshold t in [0,1], the similarity ranker
SSC returns none when the collection is empty or no item's similarity
strictly exceeds t, and when some item's similarity strictly exceeds t and
is strictly maximal among the items, SSC returns that item with its score
attached as similarity_score. -/
theorem C1_SSC_max (embed : String → List ℚ) (sim : List ℚ → List ℚ → ℚ)
    (text : String) (t : ℚ) (items : List StoredItem)
    (ht0 : 0 ≤ t) (ht1 : t ≤ 1)
    (hvec : ∀ it ∈ items, it.embedding ≠ [] ∨ it.content ≠ "") :
    ((∀ it ∈ items, scoreOf embed sim text it ≤ t) →
        SSC embed sim text t items = none) ∧
    (∀ m ∈ items, scoreOf embed sim text m > t →
        (∀ x ∈ items, x = m ∨
            scoreOf embed sim text x < scoreOf embed sim text m) →
        SSC embed sim text t items
          = some ⟨m, scoreOf embed sim text m⟩) := by
  constructor
  · intro hall
    unfold SSC
    rw [SSC_foldl_frozen embed sim text t items (none, 0)
      (fun it hit => Or.inr (hall it hit))]
  · intro m hm hmt hstrict
    obtain ⟨l1, l2, hdec⟩ := List.append_of_mem hm
    have hmv : (itemVec embed m).isSome := itemVec_isSome embed (hvec m hm)
    have h1 : ∀ it ∈ l1,
        scoreOf embed sim text it < scoreOf embed sim text m ∨ it = m := by
      intro it hit
      have : it ∈ items := by
        rw [hdec]
        exact List.mem_append.mpr (Or.inl hit)
      exact (hstrict it this).symm
    have h2 : ∀ it ∈ l2,
        scoreOf embed sim text it ≤ scoreOf embed sim text m := by
      intro it hit
      have : it ∈ items := by
        rw [hdec]
        exact List.mem_append.mpr (Or.inr (List.mem_cons_of_mem m hit))
      rcases hstrict it this with h | h
      · rw [h]
      · exact le_of_lt h
    unfold SSC
    rw [hdec]
    rw [SSC_foldl_wins embed sim text t m l1 l2 (none, 0) hmv hmt
      (lt_of_le_of_lt ht0 hmt) h1 h2]

/-- Witness for C1: two stored items scoring 1 and 2 against threshold 0;
the second is returned with score 2. -/
theorem C1_SSC_max_witness :
    SSC (fun _ => [(1 : ℚ)]) (fun _ v => v.headD 0) "q" 0
      [⟨"a", "ca", [], [1]⟩, ⟨"b", "cb", [], [2]⟩]
      = some ⟨⟨"b", "cb", [], [2]⟩, 2⟩ := by
  have h := (C1_SSC_max (fun _ => [(1 : ℚ)]) (fun _ v => v.headD 0) "q" 0
    [⟨"a", "ca", [], [1]⟩, ⟨"b", "cb", [], [2]⟩]
    le_rfl zero_le_one (by decide)).2
    ⟨"b", "cb", [], [2]⟩ (by decide) (by decide) (by decide)
  exact h

/-- C9: when the collection decomposes as l1 ++ m :: l2 where m scores
strictly above the threshold, every earlier item scores strictly below m,
and every later item scores at most m (in particular when some later item
ties with m), the similarity ranker returns m: the first-encountered item
wins at equal score. -/
theorem C9_SSC_tiebreak (embed : String → List ℚ)
    (sim : List ℚ → List ℚ → ℚ) (text : String) (t : ℚ)
    (l1 l2 : List StoredItem) (m : StoredItem)
    (ht0 : 0 ≤ t)
    (hmv : m.embedding ≠ [] ∨ m.content ≠ "")
    (hmt : scoreOf embed sim text m > t)
    (h1 : ∀ it ∈ l1, scoreOf embed sim text it < scoreOf embed sim text m)
    (h2 : ∀ it ∈ l2, scoreOf embed sim text it ≤ scoreOf embed sim text m)
    (htie : ∃ x ∈ l2, scoreOf embed sim text x = scoreOf embed sim text m) :
    SSC embed sim text t (l1 ++ m :: l2)
      = some ⟨m, scoreOf embed sim text m⟩ := by
  unfold SSC
  rw [SSC_foldl_wins embed sim text t m l1 l2 (none, 0)
    (itemVec_isSome embed hmv) hmt (lt_of_le_of_lt ht0 hmt)
    (fun it hit => Or.inl (h1 it hit)) h2]

/-- Witness for C9: two items tie at score 2 above threshold 0; the scan
returns the first of them. -/
theorem C9_SSC_tiebreak_witness :
    SSC (fun _ => [(1 : ℚ)]) (fun _ v => v.headD 0) "q" 0
      [⟨"a", "ca", [], [1]⟩, ⟨"b", "cb", [], [2]⟩, ⟨"c", "cc", [], [2]⟩]
      = some ⟨⟨"b", "cb", [], [2]⟩, 2⟩ := by
  have h := C9_SSC_tiebreak (fun _ => [(1 : ℚ)]) (fun _ v => v.headD 0) "q" 0
    [⟨"a", "ca", [], [1]⟩] [⟨"c", "cc", [], [2]⟩] ⟨"b", "cb", [], [2]⟩
    le_rfl (by decide) (by decide) (by decide) (by decide)
    ⟨⟨"c", "cc", [], [2]⟩, by decide, by decide⟩
  exact h

/-- The fallback generator always returns exactly three recommendations. -/
theorem generate_fallback_length (input_text : String)
    (existing_item : Option SimMatch) :
    (generate_fallback_recommendations input_text existing_item).length = 3 := by
  cases existing_item <;> rfl

/-- The keyword tags are capped at five entries. -/
theorem generate_basic_tags_length_le (text : String) :
    (generate_basic_tags text).length ≤ 5 := by
  unfold generate_basic_tags
  exact List.length_take_le 5 _

/-- Every tag produced by the keyword generator comes from the fixed
vocabulary. -/
theorem mem_generate_basic_tags {text x : String}
    (h : x ∈ generate_basic_tags text) :
    x ∈ ["ai", "business", "technology", "health", "education", "science",
         "psychology", "economics", "detailed", "knowledge"] := by
  simp only [generate_basic_tags] at h
  have h2 := List.Sublist.mem h (List.take_sublist 5 _)
  split at h2
  · rcases List.mem_append.mp h2 with h3 | h3
    · split at h3
      · rw [List.eq_of_mem_singleton h3]
        decide
      · exact absurd h3 (List.not_mem_nil x)
    · rw [List.eq_of_mem_singleton h3]
      decide
  · obtain ⟨p, hp, rfl⟩ := List.mem_map.mp h2
    have hp' := List.mem_of_mem_filter hp
    fin_cases hp' <;> decide

/-- Every tag produced by the keyword generator is lowercase. -/
theorem generate_basic_tags_lower {text x : String}
    (h : x ∈ generate_basic_tags text) : isLowerStr x = true := by
  have h2 := mem_generate_basic_tags h
  fin_cases h2 <;> decide

/-- Counterexample for C2: on an input matching four topic keywords and no
existing item, the second and third fallback recommendations carry six
tags each, so the claimed bound of five fails. -/
theorem C2_fallback_counterexample :
    ¬ (∀ r ∈ generate_fallback_recommendations
          "ai business technology health" none, r.tags.length ≤ 5) := by
  decide

/-- C2 (amended): the fallback generator always returns exactly 3
recommendations; with no existing item every tag is lowercase and each
recommendation carries at most 7 tags (at most 5 keyword tags plus at most
2 fixed markers); with an existing item the same bound holds up to the
existing item's stored tags, which the first recommendation carries
verbatim. -/
theorem C2_generate_fallback (input_text : String)
    (existing_item : Option SimMatch) :
    (generate_fallback_recommendations input_text existing_item).length = 3 ∧
    (∀ r ∈ generate_fallback_recommendations input_text none,
      r.tags.length ≤ 7 ∧ ∀ s ∈ r.tags, isLowerStr s = true) ∧
    (∀ e : SimMatch,
      ∀ r ∈ generate_fallback_recommendations input_text (some e),
      r.tags.length ≤ e.item.tags.length + 7 ∧
      ∀ s ∈ r.tags, s ∈ e.item.tags ∨ isLowerStr s = true) := by
  have hb := generate_basic_tags_length_le input_text
  refine ⟨generate_fallback_length input_text existing_item, ?_, ?_⟩
  · intro r hr
    simp only [generate_fallback_recommendations, List.cons_append,
      List.nil_append, List.mem_cons, List.not_mem_nil, or_false] at hr
    rcases hr with rfl | rfl | rfl
    · constructor
      · simp only [List.length_append, List.length_cons, List.length_nil]
        omega
      · intro s hs
        rcases List.mem_append.mp hs with hs | hs
        · exact generate_basic_tags_lower hs
        · rw [List.eq_of_mem_singleton hs]
          decide
    · constructor
      · simp only [List.length_append, List.length_cons, List.length_nil]
        omega
      · intro s hs
        rcases List.mem_append.mp hs with hs | hs
        · exact generate_basic_tags_lower hs
        · rcases List.mem_cons.mp hs with rfl | hs
          · decide
          · rw [List.eq_of_mem_singleton hs]
            decide
    · constructor
      · simp only [List.length_append, List.length_cons, List.length_nil]
        omega
      · intro s hs
        rcases List.mem_append.mp hs with hs | hs
        · exact generate_basic_tags_lower hs
        · rcases List.mem_cons.mp hs with rfl | hs
          · decide
          · rw [List.eq_of_mem_singleton hs]
            decide
  · intro e r hr
    simp only [generate_fallback_recommendations, List.cons_append,
      List.nil_append, List.mem_cons, List.not_mem_nil, or_false] at hr
    rcases hr with rfl | rfl | rfl
    · constructor
      · simp only [List.length_append, List.length_cons, List.length_nil]
        omega
      · intro s hs
        rcases List.mem_append.mp hs with hs | hs
        · rcases List.mem_append.mp hs with hs | hs
          · exact Or.inl hs
          · rw [List.eq_of_mem_singleton hs]
            right
            decide
        · exact Or.inr (generate_basic_tags_lower hs)
    · constructor
      · simp only [List.length_append, List.length_cons, List.length_nil]
        omega
      · intro s hs
        rcases List.mem_append.mp hs with hs | hs
        · exact Or.inr (generate_basic_tags_lower hs)
        · rw [List.eq_of_mem_singleton hs]
          right
          decide
    · constructor
      · simp only [List.length_append, List.length_cons, List.length_nil]
        omega
      · intro s hs
        rcases List.mem_append.mp hs with hs | hs
        · exact Or.inr (generate_basic_tags_lower hs)
        · rcases List.mem_cons.mp hs with rfl | hs
          · right
            decide
          · rw [List.eq_of_mem_singleton hs]
            right
            decide

/-- Witness for C2 at a concrete input with no keyword match. -/
theorem C2_generate_fallback_witness :
    (generate_fallback_recommendations "hello" none).length = 3 ∧
    ((generate_fallback_recommendations "hello" none).getD 0
        default).tags.length ≤ 7 := by
  refine ⟨(C2_generate_fallback "hello" none).1, ?_⟩
  exact ((C2_generate_fallback "hello" none).2.1
    ((generate_fallback_recommendations "hello" none).getD 0 default)
    (by decide)).1


/-- C3: LLMUpdater never surfaces a primary-path failure to the caller: on
a transport or parse error, on a response whose element count differs from
3, and on a missing required key, it returns the deterministic fallback
result instead of raising; and in every case its result has exactly 3
recommendations. -/
theorem C3_LLMUpdater_fallback (input_text : String)
    (existing_item : Option SimMatch) (llm_type : String)
    (llm_response : Except String (List RawRec)) :
    (∀ e, llm_response = Except.error e →
        LLMUpdater input_text existing_item llm_type llm_response
          = generate_fallback_recommendations input_text existing_item) ∧
    (∀ recs, llm_response = Except.ok recs → recs.length ≠ 3 →
        LLMUpdater input_text existing_item llm_type llm_response
          = generate_fallback_recommendations input_text existing_item) ∧
    (∀ recs, llm_response = Except.ok recs →
        (∃ r ∈ recs, hasRequiredKeys r = false) →
        LLMUpdater input_text existing_item llm_type llm_response
          = generate_fallback_recommendations input_text existing_item) ∧
    (LLMUpdater input_text existing_item llm_type llm_response).length = 3 := by
  refine ⟨?_, ?_, ?_, ?_⟩
  · intro e he
    subst he
    unfold LLMUpdater
    split <;> rfl
  · intro recs hr hlen
    subst hr
    have hguard : ¬ ((decide (recs.length = 3) && recs.all hasRequiredKeys)
        = true) := by
      intro hc
      rw [Bool.and_eq_true] at hc
      exact hlen (of_decide_eq_true hc.1)
    unfold LLMUpdater
    split
    · show (if (decide (recs.length = 3) && recs.all hasRequiredKeys) = true
          then List.map cleanRec recs
          else generate_fallback_recommendations input_text existing_item) = _
      rw [if_neg hguard]
    · rfl
  · intro recs hr hbad
    subst hr
    obtain ⟨r, hrmem, hrk⟩ := hbad
    have hguard : ¬ ((decide (recs.length = 3) && recs.all hasRequiredKeys)
        = true) := by
      intro hc
      rw [Bool.and_eq_true] at hc
      have h2 := List.all_eq_true.mp hc.2 r hrmem
      rw [hrk] at h2
      exact Bool.false_ne_true h2
    unfold LLMUpdater
    split
    · show (if (decide (recs.length = 3) && recs.all hasRequiredKeys) = true
          then List.map cleanRec recs
          else generate_fallback_recommendations input_text existing_item) = _
      rw [if_neg hguard]
    · rfl
  · unfold LLMUpdater
    split
    · cases llm_response with
      | error e => exact generate_fallback_length input_text existing_item
      | ok recs =>
        show (if (decide (recs.length = 3) && recs.all hasRequiredKeys) = true
            then List.map cleanRec recs
            else generate_fallback_recommendations input_text
              existing_item).length = 3
        by_cases hc : (decide (recs.length = 3) && recs.all hasRequiredKeys)
            = true
        · rw [if_pos hc, List.length_map]
          rw [Bool.and_eq_true] at hc
          exact of_decide_eq_true hc.1
        · rw [if_neg hc]
          exact generate_fallback_length input_text existing_item
    · exact generate_fallback_length input_text existing_item

/-- Witness for C3: a transport error yields the fallback result, with
three recommendations. -/
theorem C3_LLMUpdater_fallback_witness :
    LLMUpdater "text" none "azure_openai" (Except.error "boom")
      = generate_fallback_recommendations "text" none ∧
    (LLMUpdater "text" none "azure_openai" (Except.error "boom")).length
      = 3 := by
  exact ⟨(C3_LLMUpdater_fallback "text" none "azure_openai"
            (Except.error "boom")).1 "boom" rfl,
         (C3_LLMUpdater_fallback "text" none "azure_openai"
            (Except.error "boom")).2.2.2⟩

/-- Lowering a string character-wise yields the empty string only from the
empty string. -/
theorem strLower_eq_empty_iff (s : String) : strLower s = "" ↔ s = "" := by
  constructor
  · intro h
    have h2 : s.data.map Char.toLower = [] := congrArg String.data h
    exact String.ext (List.map_eq_nil_iff.mp h2)
  · intro h
    subst h
    rfl

/-- The Python comprehension of llm_updater.py line 251 — filtering on the
stripped entry and mapping to its lower-cased form — agrees with mapping
first and then dropping empties. -/
theorem cleanList_eq (l : List String) :
    l.filterMap (fun t => if strTrim t = "" then none
        else some (strLower (strTrim t)))
      = (l.map (fun t => strLower (strTrim t))).filter (fun t => t ≠ "") := by
  induction l with
  | nil => rfl
  | cons x xs ih =>
    by_cases hx : strTrim x = ""
    · have hlx0 : strLower "" = "" := rfl
      simp [List.filterMap_cons, hx, hlx0, ih]
    · have hlx : strLower (strTrim x) ≠ "" :=
        fun hc => hx ((strLower_eq_empty_iff _).mp hc)
      simp [List.filterMap_cons, hx, hlx, ih]

/-- Counterexample for C7: the JSON value 0 is a bare scalar rendering as
"0" but Python-falsy, so llm_updater.py line 248 coerces it to the empty
list and the clean-up returns the default pair, while the claimed
pipeline — wrap the bare scalar, strip, lower-case, drop empties — keeps
"0" and yields ["0"]. -/
theorem C7_cleanTags_counterexample :
    cleanTags (JTags.scalar "0" false) = ["knowledge", "general"] ∧
    specCleanTags (JTags.scalar "0" false) = ["0"] ∧
    cleanTags (JTags.scalar "0" false)
      ≠ specCleanTags (JTags.scalar "0" false) := by
  decide

/-- C7 (amended): on the primary path a bare scalar tags value is wrapped
into a one-element list only when Python-truthy — a falsy scalar (0, 0.0,
false, null, the empty string) is coerced to the empty list instead, so
the clean-up then returns the default pair; on JSON arrays and on truthy
scalars the code agrees extensionally with the claimed
strip/lower-case/drop-empties/truncate-to-5/default-when-empty pipeline,
and it also agrees on a falsy scalar whose rendering is whitespace-only
(wrapping such a scalar is cleaned away again); in every case the result
is never empty and never longer than five entries. -/
theorem C7_cleanTags :
    (∀ l, cleanTags (JTags.list l) = specCleanTags (JTags.list l)) ∧
    (∀ s, cleanTags (JTags.scalar s true)
        = specCleanTags (JTags.scalar s true)) ∧
    (∀ s, cleanTags (JTags.scalar s false) = ["knowledge", "general"]) ∧
    (∀ s, strTrim s = "" →
      cleanTags (JTags.scalar s false)
        = specCleanTags (JTags.scalar s false)) ∧
    (∀ tv, (cleanTags tv).length ≤ 5 ∧ cleanTags tv ≠ []) := by
  refine ⟨?_, ?_, ?_, ?_, ?_⟩
  · intro l
    simp only [cleanTags, specCleanTags]
    rw [cleanList_eq]
    rfl
  · intro s
    simp only [cleanTags, specCleanTags]
    rw [cleanList_eq]
    rfl
  · intro s
    rfl
  · intro s hs
    have hcode : cleanTags (JTags.scalar s false)
        = ["knowledge", "general"] := rfl
    have hspec : specCleanTags (JTags.scalar s false)
        = ["knowledge", "general"] := by
      simp only [specCleanTags]
      have h1 : specCoerceTags (JTags.scalar s false) = [s] := rfl
      rw [h1]
      have h2 : strLower (strTrim s) = "" := by
        rw [hs]
        rfl
      simp [h2]
    rw [hcode, hspec]
  · intro tv
    constructor
    · simp only [cleanTags]
      split
      · decide
      · exact List.length_take_le 5 _
    · simp only [cleanTags]
      split
      · decide
      · next h => exact h

/-- Witness for C7 at concrete inputs: a list, a truthy scalar, the falsy
scalar rendering "0", and a falsy scalar rendering whitespace only. -/
theorem C7_cleanTags_witness :
    cleanTags (JTags.list ["A "]) = specCleanTags (JTags.list ["A "]) ∧
    cleanTags (JTags.scalar "X" true)
      = specCleanTags (JTags.scalar "X" true) ∧
    cleanTags (JTags.scalar "0" false) = ["knowledge", "general"] ∧
    cleanTags (JTags.scalar " " false)
      = specCleanTags (JTags.scalar " " false) := by
  exact ⟨C7_cleanTags.1 ["A "], C7_cleanTags.2.1 "X",
         C7_cleanTags.2.2.1 "0",
         C7_cleanTags.2.2.2.1 " " (by decide)⟩

/-- Counterexample for C8: when the matched item's category is itself
named "New Category", the third fallback recommendation proposes exactly
the category of the first two, so it is not a distinct new category. -/
theorem C8_fallback_counterexample :
    ((generate_fallback_recommendations "x"
        (some ⟨⟨"New Category", "old", [], []⟩, 1⟩)).map
      Recommendation.category)
      = ["New Category", "New Category", "New Category"] := by
  decide

/-- C8 (amended): when a best match exists, fallback recommendations 1 and
2 always differ in updated_text (merge appends under the ADDITION marker,
replace uses the input alone); recommendation 3 always targets the fixed
name "New Category", which differs from the categories of recommendations
1 and 2 except when the matched item's category is itself "New Category";
with no best match recommendation 3's category always differs. -/
theorem C8_fallback (input_text : String) :
    (∀ e : SimMatch,
      ((generate_fallback_recommendations input_text (some e)).getD 0
          default).updated_text ≠
        ((generate_fallback_recommendations input_text (some e)).getD 1
          default).updated_text ∧
      ((generate_fallback_recommendations input_text (some e)).getD 2
          default).category = "New Category" ∧
      (e.item.category ≠ "New Category" →
        ((generate_fallback_recommendations input_text (some e)).getD 2
            default).category ≠
          ((generate_fallback_recommendations input_text (some e)).getD 0
            default).category ∧
        ((generate_fallback_recommendations input_text (some e)).getD 2
            default).category ≠
          ((generate_fallback_recommendations input_text (some e)).getD 1
            default).category)) ∧
    (((generate_fallback_recommendations input_text none).getD 2
        default).category = "New Category" ∧
     ((generate_fallback_recommendations input_text none).getD 2
        default).category ≠
       ((generate_fallback_recommendations input_text none).getD 0
         default).category ∧
     ((generate_fallback_recommendations input_text none).getD 2
        default).category ≠
       ((generate_fallback_recommendations input_text none).getD 1
         default).category) := by
  constructor
  · intro e
    have h0 : ((generate_fallback_recommendations input_text
        (some e)).getD 0 default).updated_text
        = e.item.content ++ "\n\n[ADDITION]: " ++ input_text := rfl
    have h1 : ((generate_fallback_recommendations input_text
        (some e)).getD 1 default).updated_text = input_text := rfl
    have hc0 : ((generate_fallback_recommendations input_text
        (some e)).getD 0 default).category = e.item.category := rfl
    have hc1 : ((generate_fallback_recommendations input_text
        (some e)).getD 1 default).category = e.item.category := rfl
    have hc2 : ((generate_fallback_recommendations input_text
        (some e)).getD 2 default).category = "New Category" := rfl
    refine ⟨?_, hc2, fun hne => ?_⟩
    · rw [h0, h1]
      intro hcontra
      have hlen := congrArg String.length hcontra
      rw [String.length_append, String.length_append] at hlen
      have h14 : ("\n\n[ADDITION]: " : String).length = 14 := rfl
      rw [h14] at hlen
      omega
    · constructor
      · rw [hc2, hc0]
        exact fun hcontra => hne hcontra.symm
      · rw [hc2, hc1]
        exact fun hcontra => hne hcontra.symm
  · have hc0 : ((generate_fallback_recommendations input_text
        none).getD 0 default).category = "New Knowledge Category" := rfl
    have hc1 : ((generate_fallback_recommendations input_text
        none).getD 1 default).category = "New Knowledge Category" := rfl
    have hc2 : ((generate_fallback_recommendations input_text
        none).getD 2 default).category = "New Category" := rfl
    refine ⟨hc2, ?_, ?_⟩
    · rw [hc2, hc0]
      decide
    · rw [hc2, hc1]
      decide

/-- Witness for C8 at a concrete matched item whose category differs from
the fixed new-category name. -/
theorem C8_fallback_witness :
    ((generate_fallback_recommendations "x"
        (some ⟨⟨"Old", "c", [], []⟩, 1⟩)).getD 0 default).updated_text ≠
      ((generate_fallback_recommendations "x"
          (some ⟨⟨"Old", "c", [], []⟩, 1⟩)).getD 1 default).updated_text ∧
    ((generate_fallback_recommendations "x"
        (some ⟨⟨"Old", "c", [], []⟩, 1⟩)).getD 2 default).category ≠
      ((generate_fallback_recommendations "x"
          (some ⟨⟨"Old", "c", [], []⟩, 1⟩)).getD 0 default).category := by
  have h := (C8_fallback "x").1 ⟨⟨"Old", "c", [], []⟩, 1⟩
  exact ⟨h.1, (h.2.2 (by decide)).1⟩

/-- When the category lookup misses, no row has the category. -/
theorem get_knowledge_by_category_eq_none {store : List Record} {c : String}
    (h : get_knowledge_by_category store c = none) :
    ∀ r ∈ store, r.category ≠ c := by
  intro r hr hc
  unfold get_knowledge_by_category at h
  rw [List.head?_eq_none_iff] at h
  have hmem : r ∈ List.filter (fun r => decide (r.category = c)) store :=
    List.mem_filter.mpr ⟨hr, by rw [hc]; simp⟩
  rw [h] at hmem
  exact absurd hmem (List.not_mem_nil r)

/-- When the category lookup hits, the returned row is a row of the store
with that category. -/
theorem get_knowledge_by_category_eq_some {store : List Record} {c : String}
    {r : Record} (h : get_knowledge_by_category store c = some r) :
    r ∈ store ∧ r.category = c := by
  unfold get_knowledge_by_category at h
  have hmem : r ∈ List.filter (fun r => decide (r.category = c)) store := by
    generalize hf : List.filter (fun r => decide (r.category = c)) store = l at h ⊢
    cases l with
    | nil => exact absurd h (by simp)
    | cons x xs =>
      simp only [List.head?_cons, Option.some.injEq] at h
      rw [← h]
      exact List.mem_cons_self x xs
  have h2 := List.mem_filter.mp hmem
  exact ⟨h2.1, of_decide_eq_true h2.2⟩

/-- The update branch of the upsert, as an equation. -/
theorem add_knowledge_item_update {store : List Record}
    {item : KnowledgeItemInput} {now freshId : ℕ} {r0 : Record}
    (hg : get_knowledge_by_category store item.category = some r0) :
    (add_knowledge_item store item now freshId).1 = store.map (fun r =>
      if r.category = item.category then
        { r with content := item.content, tags := item.tags,
                 embedding := item.embedding, created_at := now,
                 last_updated := now }
      else r) := by
  unfold add_knowledge_item
  rw [hg]

/-- The insert branch of the upsert, as an equation. -/
theorem add_knowledge_item_insert {store : List Record}
    {item : KnowledgeItemInput} {now freshId : ℕ}
    (hg : get_knowledge_by_category store item.category = none) :
    (add_knowledge_item store item now freshId).1
      = store ++ [⟨freshId, item.category, item.content, item.tags,
                   item.embedding, now, now⟩] := by
  unfold add_knowledge_item
  rw [hg]

/-- In a duplicate-free list of strings a member is counted exactly once. -/
theorem countP_eq_one_of_nodup_mem {l : List String} {c : String}
    (hnd : l.Nodup) (hc : c ∈ l) :
    l.countP (fun s => decide (s = c)) = 1 := by
  induction l with
  | nil => cases hc
  | cons x xs ih =>
    rw [List.nodup_cons] at hnd
    rcases List.mem_cons.mp hc with heq | hc2
    · rw [List.countP_cons_of_pos _ _ (by simp [heq])]
      have hz : xs.countP (fun s => decide (s = c)) = 0 := by
        rw [List.countP_eq_zero]
        intro a ha hpa
        rw [of_decide_eq_true hpa, heq] at ha
        exact hnd.1 ha
      rw [hz]
    · have hx : ¬ (x = c) := fun h => hnd.1 (by rw [h]; exact hc2)
      rw [List.countP_cons_of_neg _ _ (by simp [hx])]
      exact ih hnd.2 hc2

/-- Counterexample for C4: a store whose single row of category "c" was
created at time 5 is upserted at time 10, and the row's created_at is
overwritten to 10 rather than left unchanged. -/
theorem C4_upsert_counterexample :
    ((add_knowledge_item [⟨1, "c", "old", ["t"], [], 5, 5⟩]
        ⟨"c", "new", ["u"], []⟩ 10 2).1.map Record.created_at) = [10] ∧
    (10 : ℕ) ≠ 5 := by
  decide

/-- C4 (amended): upserting an item whose category already exists
overwrites content, tags, embedding and BOTH timestamps — created_at as
well as last_updated — on the rows of that category, keeping the store id
and all other rows unchanged; a fresh category is appended as a new row
with both timestamps current; and when the prior store has unique category
names the result has exactly one row of the item's category and keeps the
category names unique. -/
theorem C4_add_knowledge_item (store : List Record)
    (item : KnowledgeItemInput) (now freshId : ℕ) :
    ((∃ r ∈ store, r.category = item.category) →
      (add_knowledge_item store item now freshId).1 = store.map (fun r =>
        if r.category = item.category then
          { r with content := item.content, tags := item.tags,
                   embedding := item.embedding, created_at := now,
                   last_updated := now }
        else r)) ∧
    ((∀ r ∈ store, r.category ≠ item.category) →
      (add_knowledge_item store item now freshId).1
        = store ++ [⟨freshId, item.category, item.content, item.tags,
                     item.embedding, now, now⟩]) ∧
    ((store.map Record.category).Nodup →
      ((add_knowledge_item store item now freshId).1.filter
          (fun r => r.category = item.category)).length = 1 ∧
      ((add_knowledge_item store item now freshId).1.map
          Record.category).Nodup) := by
  refine ⟨?_, ?_, ?_⟩
  · rintro ⟨r, hr, hrc⟩
    cases hg : get_knowledge_by_category store item.category with
    | none => exact absurd hrc (get_knowledge_by_category_eq_none hg r hr)
    | some r0 => exact add_knowledge_item_update hg
  · intro hno
    cases hg : get_knowledge_by_category store item.category with
    | none => exact add_knowledge_item_insert hg
    | some r0 =>
      obtain ⟨hmem, hcat⟩ := get_knowledge_by_category_eq_some hg
      exact absurd hcat (hno r0 hmem)
  · intro hnd
    cases hg : get_knowledge_by_category store item.category with
    | some r0 =>
      obtain ⟨hmem, hcat0⟩ := get_knowledge_by_category_eq_some hg
      have hpres : ∀ r : Record,
          ((fun r => if r.category = item.category then
            { r with content := item.content, tags := item.tags,
                     embedding := item.embedding, created_at := now,
                     last_updated := now }
          else r) r).category = r.category := by
        intro r
        by_cases h : r.category = item.category
        · simp [h]
        · simp [h]
      constructor
      · rw [add_knowledge_item_update hg, ← List.countP_eq_length_filter,
          List.countP_map]
        have heq : ∀ r ∈ store,
            ((fun r => decide (r.category = item.category)) ∘ (fun r =>
              if r.category = item.category then
                { r with content := item.content, tags := item.tags,
                         embedding := item.embedding, created_at := now,
                         last_updated := now }
              else r)) r = true
            ↔ (fun r => decide (r.category = item.category)) r = true := by
          intro r _
          simp only [Function.comp]
          rw [hpres r]
        rw [List.countP_congr heq]
        have hconv : store.countP
            (fun r => decide (r.category = item.category))
            = (store.map Record.category).countP
                (fun s => decide (s = item.category)) := by
          rw [List.countP_map]
          rfl
        rw [hconv]
        exact countP_eq_one_of_nodup_mem hnd
          (List.mem_map.mpr ⟨r0, hmem, hcat0⟩)
      · rw [add_knowledge_item_update hg, List.map_map]
        have : (Record.category ∘ (fun r =>
            if r.category = item.category then
              { r with content := item.content, tags := item.tags,
                       embedding := item.embedding, created_at := now,
                       last_updated := now }
            else r)) = Record.category := by
          funext r
          simp only [Function.comp]
          rw [hpres r]
        rw [this]
        exact hnd
    | none =>
      have hno := get_knowledge_by_category_eq_none hg
      constructor
      · rw [add_knowledge_item_insert hg, List.filter_append]
        have h1 : store.filter (fun r => r.category = item.category) = [] := by
          rw [List.filter_eq_nil_iff]
          intro r hr hpr
          exact hno r hr (of_decide_eq_true hpr)
        rw [h1]
        simp
      · rw [add_knowledge_item_insert hg, List.map_append, List.nodup_append]
        refine ⟨hnd, by simp, ?_⟩
        intro a ha hb
        simp only [List.map_cons, List.map_nil, List.mem_singleton] at hb
        obtain ⟨r, hr, hrc⟩ := List.mem_map.mp ha
        subst hb
        exact hno r hr hrc

/-- Witness for C4: upserting over an existing single-row store of the
same category yields one fully overwritten row. -/
theorem C4_add_knowledge_item_witness :
    (add_knowledge_item [⟨1, "c", "old", ["t"], [], 5, 5⟩]
        ⟨"c", "new", ["u"], []⟩ 10 2).1
      = [⟨1, "c", "new", ["u"], [], 10, 10⟩] ∧
    ((add_knowledge_item [⟨1, "c", "old", ["t"], [], 5, 5⟩]
        ⟨"c", "new", ["u"], []⟩ 10 2).1.filter
      (fun r => r.category = "c")).length = 1 := by
  have h := C4_add_knowledge_item [⟨1, "c", "old", ["t"], [], 5, 5⟩]
    ⟨"c", "new", ["u"], []⟩ 10 2
  constructor
  · rw [h.1 ⟨⟨1, "c", "old", ["t"], [], 5, 5⟩, by decide, rfl⟩]
    decide
  · exact (h.2.2 (by decide)).1

/-- Stable insertion preserves the entries up to permutation. -/
theorem insertByCountDesc_perm (a : String × ℕ) (l : List (String × ℕ)) :
    (insertByCountDesc a l).Perm (a :: l) := by
  induction l with
  | nil => exact List.Perm.refl _
  | cons b bs ih =>
    have hunf : insertByCountDesc a (b :: bs)
        = if a.2 < b.2 then b :: insertByCountDesc a bs
          else a :: b :: bs := rfl
    rw [hunf]
    by_cases h : a.2 < b.2
    · rw [if_pos h]
      exact (ih.cons b).trans (List.Perm.swap a b bs)
    · rw [if_neg h]

/-- Stable insertion into a descending-by-count list keeps it sorted. -/
theorem insertByCountDesc_sorted {l : List (String × ℕ)}
    (hs : l.Pairwise (fun x y => y.2 ≤ x.2)) (a : String × ℕ) :
    (insertByCountDesc a l).Pairwise (fun x y => y.2 ≤ x.2) := by
  induction l with
  | nil => exact List.pairwise_singleton _ a
  | cons b bs ih =>
    rw [List.pairwise_cons] at hs
    have hunf : insertByCountDesc a (b :: bs)
        = if a.2 < b.2 then b :: insertByCountDesc a bs
          else a :: b :: bs := rfl
    rw [hunf]
    by_cases h : a.2 < b.2
    · rw [if_pos h, List.pairwise_cons]
      refine ⟨?_, ih hs.2⟩
      intro x hx
      have hx2 := (insertByCountDesc_perm a bs).mem_iff.mp hx
      rcases List.mem_cons.mp hx2 with rfl | hx3
      · exact le_of_lt h
      · exact hs.1 x hx3
    · rw [if_neg h, List.pairwise_cons]
      refine ⟨?_, List.pairwise_cons.mpr hs⟩
      intro x hx
      rcases List.mem_cons.mp hx with rfl | hx2
      · exact not_lt.mp h
      · exact le_trans (hs.1 x hx2) (not_lt.mp h)

/-- The stable sort is a permutation of its input. -/
theorem sortByCountDesc_perm (l : List (String × ℕ)) :
    (sortByCountDesc l).Perm l := by
  induction l with
  | nil => exact List.Perm.refl _
  | cons a as ih =>
    rw [sortByCountDesc, List.foldr_cons]
    exact (insertByCountDesc_perm a _).trans (ih.cons a)

/-- The stable sort produces a descending-by-count list. -/
theorem sortByCountDesc_sorted (l : List (String × ℕ)) :
    (sortByCountDesc l).Pairwise (fun x y => y.2 ≤ x.2) := by
  induction l with
  | nil => exact List.Pairwise.nil
  | cons a as ih =>
    rw [sortByCountDesc, List.foldr_cons]
    exact insertByCountDesc_sorted ih a

/-- C6: stats returns the row count, the number of distinct tags, the
category-name list, and at most ten (tag, frequency) pairs sorted by
descending frequency; each reported pair carries a stored distinct tag
with its exact frequency, and every distinct tag left out has frequency at
most that of each reported pair; on the example store with tags
["a", "b"] and ["b", "c"] the unique-tag count is 3 and ("b", 2) comes
first. -/
theorem C6_get_database_stats (store : List Record) :
    (get_database_stats store).total_knowledge_items = store.length ∧
    (get_database_stats store).unique_tags
      = (allTagsOf store).dedup.length ∧
    (get_database_stats store).categories = store.map Record.category ∧
    (get_database_stats store).most_common_tags.length ≤ 10 ∧
    (get_database_stats store).most_common_tags.Pairwise
      (fun x y => y.2 ≤ x.2) ∧
    (∀ p ∈ (get_database_stats store).most_common_tags,
      p.1 ∈ (allTagsOf store).dedup ∧
      p.2 = (allTagsOf store).count p.1) ∧
    (∀ tg ∈ (allTagsOf store).dedup,
      (tg, (allTagsOf store).count tg)
          ∉ (get_database_stats store).most_common_tags →
      ∀ p ∈ (get_database_stats store).most_common_tags,
        (allTagsOf store).count tg ≤ p.2) ∧
    ((get_database_stats exampleStatsStore).unique_tags = 3 ∧
     (get_database_stats exampleStatsStore).most_common_tags.getD 0 default
       = ("b", 2)) := by
  refine ⟨rfl, rfl, rfl, ?_, ?_, ?_, ?_, by decide, by decide⟩
  · show ((sortByCountDesc (tagCounts store)).take 10).length ≤ 10
    exact List.length_take_le 10 _
  · show ((sortByCountDesc (tagCounts store)).take 10).Pairwise
      (fun x y => y.2 ≤ x.2)
    exact List.Pairwise.sublist (List.take_sublist 10 _)
      (sortByCountDesc_sorted _)
  · intro p hp
    have hp2 : p ∈ (sortByCountDesc (tagCounts store)).take 10 := hp
    have hp3 : p ∈ sortByCountDesc (tagCounts store) :=
      List.Sublist.mem hp2 (List.take_sublist 10 _)
    have hp4 : p ∈ tagCounts store :=
      (sortByCountDesc_perm _).mem_iff.mp hp3
    obtain ⟨tg, htg, heq⟩ := List.mem_map.mp hp4
    rw [← heq]
    exact ⟨htg, rfl⟩
  · intro tg htg hnot p hp
    have hmem : (tg, (allTagsOf store).count tg)
        ∈ sortByCountDesc (tagCounts store) :=
      (sortByCountDesc_perm _).mem_iff.mpr (List.mem_map.mpr ⟨tg, htg, rfl⟩)
    have hnot2 : (tg, (allTagsOf store).count tg)
        ∉ (sortByCountDesc (tagCounts store)).take 10 := hnot
    have hp2 : p ∈ (sortByCountDesc (tagCounts store)).take 10 := hp
    have hdrop : (tg, (allTagsOf store).count tg)
        ∈ (sortByCountDesc (tagCounts store)).drop 10 := by
      have hsplit := (List.take_append_drop 10
        (sortByCountDesc (tagCounts store))).symm
      rw [hsplit] at hmem
      rcases List.mem_append.mp hmem with h | h
      · exact absurd h hnot2
      · exact h
    have hpw := sortByCountDesc_sorted (tagCounts store)
    rw [(List.take_append_drop 10
      (sortByCountDesc (tagCounts store))).symm] at hpw
    exact (List.pairwise_append.mp hpw).2.2 p hp2 _ hdrop

/-- Witness for C6: the pair ("b", 2) reported first on the example store
indeed carries the exact frequency of the stored tag "b". -/
theorem C6_get_database_stats_witness :
    "b" ∈ (allTagsOf exampleStatsStore).dedup ∧
    (2 : ℕ) = (allTagsOf exampleStatsStore).count "b" := by
  have h := (C6_get_database_stats exampleStatsStore).2.2.2.2.2.1
    ("b", 2) (by decide)
  exact ⟨h.1, h.2⟩

/-- Counterexample for C5: the apply-recommendation request model does not
constrain the text field, so an empty-text request passes validation and
the service then makes an embedding external call (the first call of the
trace) instead of being rejected before any external call. -/
theorem C5_validation_counterexample :
    applyRecommendationRequestValid "" 1 1 = true ∧
    (applyEndpointCalls (fun _ => [(1 : ℚ)]) (fun _ _ => 0) [] [] "" 1 1
        (Except.error "e") 0 0).head? = some (ExtCall.embedText "") := by
  decide

/-- C5 (amended): a threshold outside [0, 1] or a selection index outside
1..3 is rejected by request validation with no external call made, and on
the process-text request empty text is likewise rejected before any
external call; the apply-recommendation request, however, does not
validate the text, so an empty-text apply request is not rejected. -/
theorem C5_validation (text : String) (selected_option : ℤ)
    (similarity_threshold : ℚ) (embed : String → List ℚ)
    (sim : List ℚ → List ℚ → ℚ) (knowledge : List StoredItem)
    (store : List Record) (llm_response : Except String (List RawRec))
    (now freshId : ℕ) :
    (¬ (0 ≤ similarity_threshold ∧ similarity_threshold ≤ 1) ∨
        ¬ (1 ≤ selected_option ∧ selected_option ≤ 3) →
      applyEndpointCalls embed sim knowledge store text selected_option
        similarity_threshold llm_response now freshId = []) ∧
    (text = "" ∨ ¬ (0 ≤ similarity_threshold ∧ similarity_threshold ≤ 1) →
      processEndpointCalls text similarity_threshold knowledge = []) := by
  constructor
  · intro h
    have hvnot : ¬ (applyRecommendationRequestValid text selected_option
        similarity_threshold = true) := by
      intro hv
      unfold applyRecommendationRequestValid at hv
      simp only [Bool.and_eq_true, decide_eq_true_eq] at hv
      rcases h with h | h
      · exact h ⟨hv.1.2, hv.2⟩
      · exact h ⟨hv.1.1.1, hv.1.1.2⟩
    unfold applyEndpointCalls
    rw [if_neg hvnot]
  · intro h
    have hvnot : ¬ (processTextRequestValid text similarity_threshold
        = true) := by
      intro hv
      unfold processTextRequestValid at hv
      simp only [Bool.and_eq_true, decide_eq_true_eq] at hv
      rcases h with h | h
      · rw [h] at hv
        exact absurd hv.1.1.1 (by decide)
      · exact h ⟨hv.1.2, hv.2⟩
    unfold processEndpointCalls
    rw [if_neg hvnot]

/-- Witness for C5: an out-of-range selection index and an empty process
text are both rejected with an empty call trace. -/
theorem C5_validation_witness :
    applyEndpointCalls (fun _ => [(1 : ℚ)]) (fun _ _ => 0) [] [] "t" 5 1
        (Except.error "e") 0 0 = [] ∧
    processEndpointCalls "" 1 [] = [] := by
  refine ⟨?_, ?_⟩
  · exact (C5_validation "t" 5 1 (fun _ => [(1 : ℚ)]) (fun _ _ => 0) [] []
      (Except.error "e") 0 0).1 (Or.inr (by decide))
  · exact (C5_validation "" 0 1 (fun _ => [(1 : ℚ)]) (fun _ _ => 0) [] []
      (Except.error "e") 0 0).2 (Or.inl rfl)

/-- Every row of the upserted store holding the written category carries
the written tags. -/
theorem add_knowledge_item_tags (store : List Record)
    (item : KnowledgeItemInput) (now freshId : ℕ) :
    ∀ r ∈ (add_knowledge_item store item now freshId).1,
      r.category = item.category → r.tags = item.tags := by
  intro r hr hrc
  cases hg : get_knowledge_by_category store item.category with
  | some r0 =>
    rw [add_knowledge_item_update hg] at hr
    obtain ⟨r1, hr1, heq⟩ := List.mem_map.mp hr
    by_cases h1 : r1.category = item.category
    · rw [← heq]
      simp [h1]
    · rw [← heq] at hrc
      simp only [if_neg h1] at hrc
      exact absurd hrc h1
  | none =>
    rw [add_knowledge_item_insert hg] at hr
    rcases List.mem_append.mp hr with hr2 | hr2
    · exact absurd hrc (get_knowledge_by_category_eq_none hg r hr2)
    · rw [List.eq_of_mem_singleton hr2]

/-- C10: on every successful apply-recommendation request the knowledge
item written to the store carries tags exactly ["updated"] when a best
match was found and exactly ["new"] otherwise — never the tags carried by
the selected recommendation — and every row of the resulting store
holding the written category carries exactly those marker tags. -/
theorem C10_apply_recommendation_tags (embed : String → List ℚ)
    (sim : List ℚ → List ℚ → ℚ) (knowledge : List StoredItem)
    (store : List Record) (text : String) (selected_option : ℤ)
    (similarity_threshold : ℚ)
    (llm_response : Except String (List RawRec)) (now freshId : ℕ)
    (item : KnowledgeItemInput) (newStore : List Record)
    (ret : Option Record)
    (h : (apply_recommendation embed sim knowledge store text
        selected_option similarity_threshold llm_response now
        freshId).1 = some (item, newStore, ret)) :
    item.tags = (if (SSC embed sim text similarity_threshold
        knowledge).isSome then ["updated"] else ["new"]) ∧
    ∀ r ∈ newStore, r.category = item.category → r.tags = item.tags := by
  simp only [apply_recommendation] at h
  split at h
  · exact absurd h (by simp)
  · split at h
    · exact absurd h (by simp)
    · simp only [Option.some.injEq, Prod.mk.injEq] at h
      obtain ⟨h1, h2, h3⟩ := h
      rw [← h1, ← h2]
      exact ⟨rfl, add_knowledge_item_tags store _ now freshId⟩

/-- Witness for C10: on an empty store the written item carries exactly
the marker tags of the no-match case. -/
theorem C10_apply_recommendation_tags_witness :
    (⟨"New Knowledge Category", "t", ["new"], [(1 : ℚ)]⟩ :
        KnowledgeItemInput).tags
      = (if (SSC (fun _ => [(1 : ℚ)]) (fun _ _ => 0) "t" 1 []).isSome
          then ["updated"] else ["new"]) := by
  exact (C10_apply_recommendation_tags (fun _ => [(1 : ℚ)]) (fun _ _ => 0)
    [] [] "t" 1 1 (Except.error "e") 0 0
    ⟨"New Knowledge Category", "t", ["new"], [(1 : ℚ)]⟩
    [⟨0, "New Knowledge Category", "t", ["new"], [(1 : ℚ)], 0, 0⟩]
    (some ⟨0, "New Knowledge Category", "t", ["new"], [(1 : ℚ)], 0, 0⟩)
    (by decide)).1
